import Mathlib

/-!
# TurboTransformers core memory layer

A shallow embedding of `turbo_transformers/core/memory.cpp` (aligned allocation,
the device-copy dispatch table, the transfer-kind classifier) and of the planning
contract of the model-aware allocator, followed by the properties proved of them.

Conventions of the embedding:
* addresses and `size_t` values are natural numbers;
* memory is a total map from addresses to bytes;
* a C++ function that may throw returns the state it leaves behind together with
  the exception it raised, if any;
* library functions the source calls but does not define (`posix_memalign`,
  `cudaMemcpy`) are parameters of the functions that call them.
-/

namespace turbo_transformers
namespace core

/-! ## Exceptions -/

/-- Modelled from the spec: the throwing macros of `enforce.h` are not among the
source files. An exception is recorded by the macro that raised it, the format
string handed to the macro and the values formatted into it. -/
inductive Exception where
  | FT_THROW (fmt : String) (arg : Nat)
  | FT_ENFORCE_EQ (fmt : String) (args : List Nat)
  | FT_ENFORCE_CUDA_SUCCESS (status : Nat)
  deriving DecidableEq

/-- The exception `align_alloc` raises (memory.cpp lines 24-27); the spec calls it
`AllocationError`. -/
def AllocationError (sz align : Nat) : Exception :=
  .FT_ENFORCE_EQ "Cannot allocate align memory with %d bytes, align %d" [sz, align]

/-- The exception of memory.cpp line 60; the spec calls it
`UnsupportedTransferError`. -/
def UnsupportedTransferError (f : Nat) : Exception :=
  .FT_THROW "The MemcpyFlag %d is not support now." f

/-- The exception of memory.cpp lines 64-67 (the two adjacent literals are one
string); the spec calls it `DeviceNotCompiledError`. -/
def DeviceNotCompiledError (f : Nat) : Exception :=
  .FT_THROW
    ("The MemcpyFlag %d is not support since turbo transformers is not " ++
      "compiled with this device support") f

/-! ## Enumerations declared in headers -/

/-- Modelled from the spec: `DLDeviceType` is declared in the dlpack header, which
is not among the source files. A device type is its integer code; memory.cpp
names only `kDLCPU`, every other code is a non-host device. -/
structure DLDeviceType where
  code : Nat
  deriving DecidableEq

namespace DLDeviceType

/-- The host device. -/
def kDLCPU : DLDeviceType := ⟨1⟩

/-- The CUDA device. -/
def kDLGPU : DLDeviceType := ⟨2⟩

end DLDeviceType

/-- Modelled from the spec: `MemcpyFlag` (the spec's TransferKind) is declared in
`memory.h`, which is not among the source files. A flag is the value
`static_cast<size_t>(flag)` that memory.cpp computes from it; the four kinds are
numbered in the spec's order and `kNUM_MEMCPY_FLAGS` is their count. Values of
the enumeration type outside the named ones are representable, as in C++. -/
structure MemcpyFlag where
  ordinal : Nat
  deriving DecidableEq

namespace MemcpyFlag

/-- Host to host. -/
def kCPU2CPU : MemcpyFlag := ⟨0⟩

/-- Host to device. -/
def kCPU2GPU : MemcpyFlag := ⟨1⟩

/-- Device to host. -/
def kGPU2CPU : MemcpyFlag := ⟨2⟩

/-- Device to device. -/
def kGPU2GPU : MemcpyFlag := ⟨3⟩

/-- The sentinel counting the kinds. -/
def kNUM_MEMCPY_FLAGS : MemcpyFlag := ⟨4⟩

end MemcpyFlag

/-- The directions of the CUDA runtime's `cudaMemcpy` that memory.cpp names. -/
inductive cudaMemcpyKind where
  | cudaMemcpyHostToDevice
  | cudaMemcpyDeviceToHost
  | cudaMemcpyDeviceToDevice
  deriving DecidableEq

/-! ## Memory and the transfer functions -/

/-- A byte-addressed memory. -/
abbrev Memory := Nat → Fin 256

/-- The C library's `std::memcpy`: the `n` bytes at `src` are written at `dst`. -/
def memcpy (m : Memory) (dst src n : Nat) : Memory :=
  fun a => if dst ≤ a ∧ a < dst + n then m (src + (a - dst)) else m a

/-- The build configuration: whether `FT_WITH_CUDA` is defined, and the CUDA
runtime's `cudaMemcpy`, which yields a status (0 is `cudaSuccess`) and the memory
it leaves. -/
structure Build where
  FT_WITH_CUDA : Bool
  cudaMemcpy : Memory → Nat → Nat → Nat → cudaMemcpyKind → Nat × Memory

/-- A non-empty `std::function` stored in the table: `std::memcpy` itself, or the
lambda of memory.cpp lines 44-47 with its captured `flag`. -/
inductive MemcpyFuncTypes where
  | memcpy
  | cudaLambda (flag : cudaMemcpyKind)
  deriving DecidableEq

/-- Calling a stored transfer function: the memory it leaves and the exception it
raised, if any. -/
def MemcpyFuncTypes.call (b : Build) (func : MemcpyFuncTypes) (m : Memory)
    (dst src n : Nat) : Memory × Option Exception :=
  match func with
  | .memcpy => (core.memcpy m dst src n, none)
  | .cudaLambda flag =>
    let r := b.cudaMemcpy m dst src n flag
    if r.1 = 0 then (r.2, none) else (r.2, some (.FT_ENFORCE_CUDA_SUCCESS r.1))

/-- The table of memory.cpp lines 32-52; an empty `std::function` is `none`. -/
def InitMemcpyFuncs (FT_WITH_CUDA : Bool) : List (Option MemcpyFuncTypes) :=
  let results : List (Option MemcpyFuncTypes) :=
    List.replicate MemcpyFlag.kNUM_MEMCPY_FLAGS.ordinal none
  let results := results.set MemcpyFlag.kCPU2CPU.ordinal (some .memcpy)
  if FT_WITH_CUDA then
    [(MemcpyFlag.kCPU2GPU, cudaMemcpyKind.cudaMemcpyHostToDevice),
     (MemcpyFlag.kGPU2CPU, cudaMemcpyKind.cudaMemcpyDeviceToHost),
     (MemcpyFlag.kGPU2GPU, cudaMemcpyKind.cudaMemcpyDeviceToDevice)].foldl
      (fun results pair => results.set pair.1.ordinal (some (.cudaLambda pair.2)))
      results
  else
    results

/-- One call of a transfer function, as recorded in the process. -/
structure Invocation where
  func : MemcpyFuncTypes
  dst : Nat
  src : Nat
  n : Nat
  deriving DecidableEq

/-- The part of the process `Memcpy` acts on: the memory, whether the
function-local static table has been constructed, and the transfer functions
invoked so far. -/
structure Process where
  memory : Memory
  memcpyFuncsBuilt : Bool
  invoked : List Invocation

/-- What a call leaves: the process state and the exception raised, if any. -/
structure Outcome where
  state : Process
  raised : Option Exception

/-- The dispatcher of memory.cpp lines 54-70. -/
def Memcpy (b : Build) (s : Process) (dst_data src_data data_size : Nat)
    (flag : MemcpyFlag) : Outcome :=
  if data_size ≤ 0 then ⟨s, none⟩
  else
    let memcpyFuncs := InitMemcpyFuncs b.FT_WITH_CUDA
    let s : Process := { s with memcpyFuncsBuilt := true }
    let f := flag.ordinal
    if f ≥ memcpyFuncs.length then
      ⟨s, some (.FT_THROW "The MemcpyFlag %d is not support now." f)⟩
    else
      match memcpyFuncs.getD f none with
      | none =>
        ⟨s, some (.FT_THROW
          ("The MemcpyFlag %d is not support since turbo transformers is not " ++
            "compiled with this device support") f)⟩
      | some func =>
        let r := func.call b s.memory dst_data src_data data_size
        ⟨{ s with memory := r.1, invoked := s.invoked ++ [⟨func, dst_data, src_data, data_size⟩] },
          r.2⟩

/-- The classifier of memory.cpp lines 71-79. -/
def ToMemcpyFlag (dst src : DLDeviceType) : MemcpyFlag :=
  if dst = DLDeviceType.kDLCPU then
    if src = DLDeviceType.kDLCPU then MemcpyFlag.kCPU2CPU else MemcpyFlag.kGPU2CPU
  else
    if src = DLDeviceType.kDLCPU then MemcpyFlag.kCPU2GPU else MemcpyFlag.kGPU2GPU

/-! ## Aligned allocation -/

/-- The allocator state `posix_memalign` acts on: the blocks handed out (address
and length), the lowest unused address, the end of the address range the process
may obtain, and the number of calls made. -/
structure Heap where
  regions : List (Nat × Nat)
  brk : Nat
  limit : Nat
  calls : Nat
  deriving DecidableEq

/-- The bytes `[a, a + n)` lie in one block handed out by the allocator. -/
def Heap.Writable (h : Heap) (a n : Nat) : Prop :=
  ∃ r ∈ h.regions, r.1 ≤ a ∧ a + n ≤ r.1 + r.2

/-- What `posix_memalign` leaves: its status, the pointer it stored and the heap. -/
structure MemalignResult where
  status : Nat
  memptr : Nat
  heap : Heap
  deriving DecidableEq

/-- What `align_alloc` leaves: the heap, and either the pointer returned or the
exception raised. -/
structure AllocOutcome where
  heap : Heap
  result : Except Exception Nat

/-- The allocation primitive of memory.cpp lines 22-29, over the platform's
`posix_memalign`. -/
def align_alloc (posix_memalign : Heap → Nat → Nat → MemalignResult)
    (h : Heap) (sz align : Nat) : AllocOutcome :=
  let r := posix_memalign h align sz
  if r.status = 0 then ⟨r.heap, .ok r.memptr⟩
  else ⟨r.heap, .error (.FT_ENFORCE_EQ "Cannot allocate align memory with %d bytes, align %d" [sz, align])⟩

/-- The size of a pointer on the platform modelled. -/
def sizeof_void_p : Nat := 8

/-- The status `posix_memalign` reports for an unsupported alignment. -/
def EINVAL : Nat := 22

/-- The status `posix_memalign` reports when memory is exhausted. -/
def ENOMEM : Nat := 12

/-- Modelled from the spec: `posix_memalign` is the platform's allocator, not part
of the source files. Following POSIX, it reports `EINVAL` unless the alignment is a
power of two and a multiple of the pointer size, `ENOMEM` when the request does not
fit in what is left, and otherwise status 0 with a fresh block starting at the next
multiple of the alignment. -/
def posix_memalign (h : Heap) (alignment size : Nat) : MemalignResult :=
  let h : Heap := { h with calls := h.calls + 1 }
  if alignment % sizeof_void_p = 0 ∧ alignment ≠ 0 ∧ alignment &&& (alignment - 1) = 0 then
    let p := (h.brk + alignment - 1) / alignment * alignment
    if p + size ≤ h.limit then
      ⟨0, p, { h with brk := p + size, regions := (p, size) :: h.regions }⟩
    else ⟨ENOMEM, 0, h⟩
  else ⟨EINVAL, 0, h⟩

/-- The contract of POSIX for a successful `posix_memalign`: the pointer stored is
a multiple of the alignment and starts a block of at least the requested size. -/
def PosixContract (pm : Heap → Nat → Nat → MemalignResult) : Prop :=
  ∀ h alignment size, (pm h alignment size).status = 0 →
    (pm h alignment size).memptr % alignment = 0 ∧
      (pm h alignment size).heap.Writable (pm h alignment size).memptr size

/-! ## The model-aware allocator: planning -/

namespace allocator

/-- Modelled from the spec: the request a caller submits to `plan`, which
model_aware_allocator.cpp (only the destructor) does not show. A tensor of `size`
bytes is alive over the half-open window `[start, stop)` of the execution
order. -/
structure TensorRequest where
  size : Nat
  start : Nat
  stop : Nat
  deriving DecidableEq

/-- A range `[offset, offset + size)` of the arena. -/
structure Interval where
  offset : Nat
  size : Nat
  deriving DecidableEq

/-- Two lifetimes share a point of the execution order. -/
def TensorRequest.Overlaps (r q : TensorRequest) : Prop :=
  r.start < q.stop ∧ q.start < r.stop ∧ r.start < r.stop ∧ q.start < q.stop

instance (r q : TensorRequest) : Decidable (r.Overlaps q) := by
  unfold TensorRequest.Overlaps
  infer_instance

/-- Two ranges share no byte: one is empty, or one ends where the other starts or
earlier. -/
def Interval.Disjoint (a b : Interval) : Prop :=
  a.size = 0 ∨ b.size = 0 ∨ a.offset + a.size ≤ b.offset ∨ b.offset + b.size ≤ a.offset

instance (a b : Interval) : Decidable (a.Disjoint b) := by
  unfold Interval.Disjoint
  infer_instance

/-- Modelled from the spec: the AllocationPlan, the arena size and the range of
every tensor, the tensor's id being its position in the sequence submitted. -/
structure AllocationPlan where
  arenaSize : Nat
  entries : List Interval
  deriving DecidableEq

/-- Modelled from the spec: `resolve`, the plan entry of a tensor, `none` for an id
that was never planned. -/
def AllocationPlan.resolve (p : AllocationPlan) (tensorId : Nat) : Option Interval :=
  p.entries[tensorId]?

/-- The request at a position of the sequence. -/
def requestAt (requests : List TensorRequest) (i : Nat) : TensorRequest :=
  requests.getD i ⟨0, 0, 0⟩

/-- The range a plan gives the tensor at a position. -/
def AllocationPlan.entryAt (p : AllocationPlan) (i : Nat) : Interval :=
  p.entries.getD i ⟨0, 0⟩

/-- The sum of the sizes requested. -/
def totalSize (requests : List TensorRequest) : Nat := (requests.map (·.size)).sum

/-- Modelled from the spec: the constraint of section 4.3 on a plan. Every request
has an entry of its size inside the arena, and no two tensors with overlapping
lifetimes share a byte. -/
def Feasible (requests : List TensorRequest) (p : AllocationPlan) : Prop :=
  p.entries.length = requests.length ∧
  ∀ i, i < requests.length →
    (p.entryAt i).size = (requestAt requests i).size ∧
    (p.entryAt i).offset + (p.entryAt i).size ≤ p.arenaSize ∧
    ∀ j, j < requests.length → i ≠ j →
      (requestAt requests i).Overlaps (requestAt requests j) →
      (p.entryAt i).Disjoint (p.entryAt j)

instance (requests : List TensorRequest) (p : AllocationPlan) :
    Decidable (Feasible requests p) := by
  unfold Feasible
  infer_instance

/-- Every way of giving each request, in order, a range of its size that starts
at an offset of at most `bound`. -/
def candidates (bound : Nat) : List TensorRequest → List (List Interval)
  | [] => [[]]
  | r :: rs =>
    (List.range (bound + 1)).flatMap
      (fun o => (candidates bound rs).map (fun es => (⟨o, r.size⟩ : Interval) :: es))

/-- The first feasible plan with arena size `arena`, if there is one. -/
def tryArena (requests : List TensorRequest) (arena : Nat) : Option AllocationPlan :=
  ((candidates arena requests).map (fun es => (⟨arena, es⟩ : AllocationPlan))).find?
    (fun p => decide (Feasible requests p))

/-- The bytes requested before position `k`. -/
def prefixSize (requests : List TensorRequest) (k : Nat) : Nat :=
  ((requests.map (·.size)).take k).sum

/-- The entries that put the tensor at position `i` at offset `off i`. -/
def placeAt (off : Nat → Nat) (requests : List TensorRequest) : List Interval :=
  (List.range requests.length).map (fun i => ⟨off i, (requestAt requests i).size⟩)

/-- The bytes requested before position `k`, the request at position `s` left
out. -/
def prefixSkipping (requests : List TensorRequest) (s k : Nat) : Nat :=
  if s < k then prefixSize requests k - (requestAt requests s).size
  else prefixSize requests k

/-- The offsets that stack every tensor but the one at position `s` and give that
one the offset of the tensor at position `b`. -/
def sharedOffsets (requests : List TensorRequest) (s b k : Nat) : Nat :=
  if k = s then prefixSkipping requests s b else prefixSkipping requests s k

/-- Modelled from the spec: the naive always-fresh strategy of section 4.3, every
tensor after the previous one. -/
def naive (requests : List TensorRequest) : AllocationPlan :=
  ⟨totalSize requests, placeAt (prefixSize requests) requests⟩

/-- The search for the least arena size that admits a feasible plan: `arena`,
`arena + 1`, ... are tried, at most `fuel` of them. -/
def searchArena (requests : List TensorRequest) : Nat → Nat → AllocationPlan
  | 0, _ => naive requests
  | fuel + 1, arena =>
    match tryArena requests arena with
    | some p => p
    | none => searchArena requests fuel (arena + 1)

/-- Modelled from the spec: `plan`, which model_aware_allocator.cpp does not show.
Section 4.3 makes it compute offsets such that no two tensors with overlapping
lifetimes share a byte and the total arena size is minimized subject to that
constraint; the best-fit procedure the same section recommends does not always
reach the minimum and section 9 leaves the procedure open, so the contract is what
is modelled: the arena sizes from 0 up to the sum of the sizes are tried in turn
and the first feasible plan found is returned. -/
def plan (requests : List TensorRequest) : AllocationPlan :=
  searchArena requests (totalSize requests + 1) 0

end allocator

/-! ## Properties of the transfer-kind classifier and the dispatcher -/

/-- C1: `ToMemcpyFlag dst src` is host-to-host when both are the CPU,
device-to-host when only `dst` is the CPU, host-to-device when only `src` is the
CPU, and device-to-device otherwise; every device type other than the CPU counts
as the device side. -/
theorem ToMemcpyFlag_classifies (dst src : DLDeviceType) :
    (dst = DLDeviceType.kDLCPU → src = DLDeviceType.kDLCPU →
        ToMemcpyFlag dst src = MemcpyFlag.kCPU2CPU) ∧
    (dst = DLDeviceType.kDLCPU → src ≠ DLDeviceType.kDLCPU →
        ToMemcpyFlag dst src = MemcpyFlag.kGPU2CPU) ∧
    (dst ≠ DLDeviceType.kDLCPU → src = DLDeviceType.kDLCPU →
        ToMemcpyFlag dst src = MemcpyFlag.kCPU2GPU) ∧
    (dst ≠ DLDeviceType.kDLCPU → src ≠ DLDeviceType.kDLCPU →
        ToMemcpyFlag dst src = MemcpyFlag.kGPU2GPU) := by
  unfold ToMemcpyFlag
  refine ⟨?_, ?_, ?_, ?_⟩ <;> intro hd hs <;> simp [hd, hs]

/-- A device type that is neither CPU nor GPU (code 7) is the device side. -/
theorem ToMemcpyFlag_classifies_witness :
    (⟨7⟩ : DLDeviceType) ≠ DLDeviceType.kDLCPU ∧
      ToMemcpyFlag ⟨7⟩ DLDeviceType.kDLCPU = MemcpyFlag.kCPU2GPU :=
  ⟨by decide, (ToMemcpyFlag_classifies ⟨7⟩ DLDeviceType.kDLCPU).2.2.1 (by decide) rfl⟩

theorem InitMemcpyFuncs_length (c : Bool) :
    (InitMemcpyFuncs c).length = MemcpyFlag.kNUM_MEMCPY_FLAGS.ordinal := by
  cases c <;> rfl

theorem InitMemcpyFuncs_host (c : Bool) :
    (InitMemcpyFuncs c).getD MemcpyFlag.kCPU2CPU.ordinal none = some .memcpy := by
  cases c <;> rfl

/-- C2: a host-to-host `Memcpy` of `n` bytes between non-overlapping buffers of at
least `n` bytes raises nothing, puts the old bytes of `src` in the first `n` bytes
of `dst`, and leaves `src` and the bytes of `dst` from index `n` on as they
were. -/
theorem Memcpy_host_to_host (b : Build) (s : Process) (dst src n dlen slen : Nat)
    (hd : n ≤ dlen) (hs : n ≤ slen) (hdis : dst + dlen ≤ src ∨ src + slen ≤ dst) :
    (Memcpy b s dst src n MemcpyFlag.kCPU2CPU).raised = none ∧
    (∀ i, i < n →
      (Memcpy b s dst src n MemcpyFlag.kCPU2CPU).state.memory (dst + i) = s.memory (src + i)) ∧
    (∀ i, i < slen →
      (Memcpy b s dst src n MemcpyFlag.kCPU2CPU).state.memory (src + i) = s.memory (src + i)) ∧
    (∀ i, n ≤ i → i < dlen →
      (Memcpy b s dst src n MemcpyFlag.kCPU2CPU).state.memory (dst + i) = s.memory (dst + i)) := by
  by_cases hn : n ≤ 0
  · have h0 : n = 0 := by omega
    subst h0
    simp [Memcpy]
  · have hlen : ¬ MemcpyFlag.kCPU2CPU.ordinal ≥ (InitMemcpyFuncs b.FT_WITH_CUDA).length := by
      rw [InitMemcpyFuncs_length]; decide
    simp only [Memcpy, if_neg hn, if_neg hlen, InitMemcpyFuncs_host, MemcpyFuncTypes.call,
      core.memcpy]
    refine ⟨trivial, ?_, ?_, ?_⟩
    · intro i hi
      have h1 : dst ≤ dst + i ∧ dst + i < dst + n := ⟨by omega, by omega⟩
      rw [if_pos h1, Nat.add_sub_cancel_left]
    · intro i hi
      have h1 : ¬ (dst ≤ src + i ∧ src + i < dst + n) := by omega
      rw [if_neg h1]
    · intro i hi1 hi2
      have h1 : ¬ (dst ≤ dst + i ∧ dst + i < dst + n) := by omega
      rw [if_neg h1]

/-- A 4-byte copy from address 100 to address 0, on a build without CUDA. -/
theorem Memcpy_host_to_host_witness :
    (4 ≤ 8 ∧ 4 ≤ 4 ∧ (0 + 8 ≤ 100 ∨ 100 + 4 ≤ 0)) ∧
    (Memcpy ⟨false, fun m _ _ _ _ => (1, m)⟩ ⟨fun a => ⟨a % 256, Nat.mod_lt _ (by decide)⟩, false, []⟩
        0 100 4 MemcpyFlag.kCPU2CPU).state.memory (0 + 3) = ⟨103, by decide⟩ := by
  refine ⟨by decide, ?_⟩
  have h := (Memcpy_host_to_host ⟨false, fun m _ _ _ _ => (1, m)⟩
    ⟨fun a => ⟨a % 256, Nat.mod_lt _ (by decide)⟩, false, []⟩ 0 100 4 8 4
    (by decide) (by decide) (by decide)).2.1 3 (by decide)
  rw [h]

/-- C3: with a byte count of zero `Memcpy` returns the process as it found it and
raises nothing, whatever the kind, the pointers and the build. -/
theorem Memcpy_zero_noop (b : Build) (s : Process) (dst src : Nat) (flag : MemcpyFlag) :
    Memcpy b s dst src 0 flag = ⟨s, none⟩ := by
  simp [Memcpy]

/-! ### How `Memcpy` ends, case by case -/

theorem unsupported_ne_notCompiled (f g : Nat) :
    UnsupportedTransferError f ≠ DeviceNotCompiledError g := by
  intro h
  unfold UnsupportedTransferError DeviceNotCompiledError at h
  injection h with h1 _
  exact absurd h1 (by decide)

theorem call_raised_ne_FT_THROW (b : Build) (func : MemcpyFuncTypes) (m : Memory)
    (dst src n : Nat) (fmt : String) (arg : Nat) :
    (func.call b m dst src n).2 ≠ some (.FT_THROW fmt arg) := by
  cases func with
  | memcpy => simp [MemcpyFuncTypes.call]
  | cudaLambda flag =>
    simp only [MemcpyFuncTypes.call]
    split <;> simp

theorem Memcpy_out_of_range (b : Build) (s : Process) (dst src n : Nat) (flag : MemcpyFlag)
    (hn : 0 < n) (hf : MemcpyFlag.kNUM_MEMCPY_FLAGS.ordinal ≤ flag.ordinal) :
    Memcpy b s dst src n flag =
      ⟨{ s with memcpyFuncsBuilt := true }, some (UnsupportedTransferError flag.ordinal)⟩ := by
  have h0 : ¬ n ≤ 0 := by omega
  have hlen : flag.ordinal ≥ (InitMemcpyFuncs b.FT_WITH_CUDA).length := by
    rw [InitMemcpyFuncs_length]; exact hf
  simp only [Memcpy, if_neg h0, if_pos hlen, UnsupportedTransferError]

theorem Memcpy_empty_slot (b : Build) (s : Process) (dst src n : Nat) (flag : MemcpyFlag)
    (hn : 0 < n) (hf : flag.ordinal < MemcpyFlag.kNUM_MEMCPY_FLAGS.ordinal)
    (hslot : (InitMemcpyFuncs b.FT_WITH_CUDA).getD flag.ordinal none = none) :
    Memcpy b s dst src n flag =
      ⟨{ s with memcpyFuncsBuilt := true }, some (DeviceNotCompiledError flag.ordinal)⟩ := by
  have h0 : ¬ n ≤ 0 := by omega
  have hlen : ¬ flag.ordinal ≥ (InitMemcpyFuncs b.FT_WITH_CUDA).length := by
    rw [InitMemcpyFuncs_length]; omega
  simp only [Memcpy, if_neg h0, if_neg hlen, hslot, DeviceNotCompiledError]

theorem Memcpy_full_slot (b : Build) (s : Process) (dst src n : Nat) (flag : MemcpyFlag)
    (func : MemcpyFuncTypes)
    (hn : 0 < n) (hf : flag.ordinal < MemcpyFlag.kNUM_MEMCPY_FLAGS.ordinal)
    (hslot : (InitMemcpyFuncs b.FT_WITH_CUDA).getD flag.ordinal none = some func) :
    Memcpy b s dst src n flag =
      ⟨{ memory := (func.call b s.memory dst src n).1, memcpyFuncsBuilt := true,
         invoked := s.invoked ++ [⟨func, dst, src, n⟩] },
        (func.call b s.memory dst src n).2⟩ := by
  have h0 : ¬ n ≤ 0 := by omega
  have hlen : ¬ flag.ordinal ≥ (InitMemcpyFuncs b.FT_WITH_CUDA).length := by
    rw [InitMemcpyFuncs_length]; omega
  simp only [Memcpy, if_neg h0, if_neg hlen, hslot]

theorem InitMemcpyFuncs_slot (c : Bool) (flag : MemcpyFlag)
    (hf : flag.ordinal < MemcpyFlag.kNUM_MEMCPY_FLAGS.ordinal) :
    (InitMemcpyFuncs c).getD flag.ordinal none = none ↔
      (c = false ∧ flag ≠ MemcpyFlag.kCPU2CPU) := by
  obtain ⟨o⟩ := flag
  have ho : o < 4 := hf
  interval_cases o <;> cases c <;> decide

/-- C4: `Memcpy` raises the unsupported-transfer error exactly when the byte count
is positive and the ordinal of the kind is at least `kNUM_MEMCPY_FLAGS` (the
sentinel included), whatever the build; the error carries that ordinal. -/
theorem Memcpy_unsupported_iff (b : Build) (s : Process) (dst src n : Nat)
    (flag : MemcpyFlag) (f : Nat) :
    (Memcpy b s dst src n flag).raised = some (UnsupportedTransferError f) ↔
      (0 < n ∧ MemcpyFlag.kNUM_MEMCPY_FLAGS.ordinal ≤ flag.ordinal ∧ f = flag.ordinal) := by
  constructor
  · intro h
    rcases Nat.eq_zero_or_pos n with hn | hn
    · subst hn
      simp [Memcpy] at h
    · by_cases hf : MemcpyFlag.kNUM_MEMCPY_FLAGS.ordinal ≤ flag.ordinal
      · rw [Memcpy_out_of_range b s dst src n flag hn hf] at h
        simp only [UnsupportedTransferError, Option.some.injEq, Exception.FT_THROW.injEq] at h
        exact ⟨hn, hf, h.2.symm⟩
      · exfalso
        have hf2 : flag.ordinal < MemcpyFlag.kNUM_MEMCPY_FLAGS.ordinal := by omega
        cases hslot : (InitMemcpyFuncs b.FT_WITH_CUDA).getD flag.ordinal none with
        | none =>
          rw [Memcpy_empty_slot b s dst src n flag hn hf2 hslot] at h
          exact unsupported_ne_notCompiled f flag.ordinal (Option.some.inj h).symm
        | some func =>
          rw [Memcpy_full_slot b s dst src n flag func hn hf2 hslot] at h
          exact call_raised_ne_FT_THROW b func _ dst src n _ _ h
  · rintro ⟨hn, hf, rfl⟩
    rw [Memcpy_out_of_range b s dst src n flag hn hf]

/-- The sentinel kind itself, one byte, on a build with CUDA. -/
theorem Memcpy_unsupported_iff_witness :
    (Memcpy ⟨true, fun m _ _ _ _ => (0, m)⟩ ⟨fun _ => 0, false, []⟩ 0 8 1
      MemcpyFlag.kNUM_MEMCPY_FLAGS).raised = some (UnsupportedTransferError 4) :=
  (Memcpy_unsupported_iff ⟨true, fun m _ _ _ _ => (0, m)⟩ ⟨fun _ => 0, false, []⟩ 0 8 1
    MemcpyFlag.kNUM_MEMCPY_FLAGS 4).mpr ⟨by decide, by decide, rfl⟩

/-- C5: on a build without CUDA, a `Memcpy` of a positive byte count with the
host-to-device, device-to-host or device-to-device kind raises the
device-not-compiled error, which differs from every unsupported-transfer error;
no transfer function is invoked and the memory is left as it was. -/
theorem Memcpy_device_not_compiled (b : Build) (s : Process) (dst src n : Nat)
    (flag : MemcpyFlag) (hb : b.FT_WITH_CUDA = false) (hn : 0 < n)
    (hk : flag = MemcpyFlag.kCPU2GPU ∨ flag = MemcpyFlag.kGPU2CPU ∨
      flag = MemcpyFlag.kGPU2GPU) :
    (Memcpy b s dst src n flag).raised = some (DeviceNotCompiledError flag.ordinal) ∧
    (∀ f, DeviceNotCompiledError flag.ordinal ≠ UnsupportedTransferError f) ∧
    (Memcpy b s dst src n flag).state.invoked = s.invoked ∧
    (Memcpy b s dst src n flag).state.memory = s.memory := by
  have hf : flag.ordinal < MemcpyFlag.kNUM_MEMCPY_FLAGS.ordinal := by
    rcases hk with h | h | h <;> subst h <;> decide
  have hne : flag ≠ MemcpyFlag.kCPU2CPU := by
    rcases hk with h | h | h <;> subst h <;> decide
  have hslot := (InitMemcpyFuncs_slot b.FT_WITH_CUDA flag hf).mpr ⟨hb, hne⟩
  rw [Memcpy_empty_slot b s dst src n flag hn hf hslot]
  exact ⟨rfl, fun f h => unsupported_ne_notCompiled f _ h.symm, rfl, rfl⟩

/-- A 16-byte host-to-device request on a build without CUDA. -/
theorem Memcpy_device_not_compiled_witness :
    (Memcpy ⟨false, fun m _ _ _ _ => (0, m)⟩ ⟨fun _ => 0, false, []⟩ 0 64 16
      MemcpyFlag.kCPU2GPU).raised = some (DeviceNotCompiledError 1) :=
  (Memcpy_device_not_compiled ⟨false, fun m _ _ _ _ => (0, m)⟩ ⟨fun _ => 0, false, []⟩ 0 64 16
    MemcpyFlag.kCPU2GPU rfl (by decide) (Or.inl rfl)).1

/-- C9: the table has `kNUM_MEMCPY_FLAGS` slots; the host-to-host slot always holds
`std::memcpy`, whose call is the byte copy; the host-to-device, device-to-host and
device-to-device slots are empty without CUDA and with CUDA hold the lambda
capturing `cudaMemcpyHostToDevice`, `cudaMemcpyDeviceToHost` and
`cudaMemcpyDeviceToDevice` respectively; and calling the lambda capturing a
direction runs `cudaMemcpy` on the same pointers and byte count with that
direction, leaving the memory `cudaMemcpy` leaves and raising exactly when its
status is not 0. -/
theorem InitMemcpyFuncs_table (b : Build) (m : Memory) (dst src n : Nat) :
    (InitMemcpyFuncs b.FT_WITH_CUDA).length = MemcpyFlag.kNUM_MEMCPY_FLAGS.ordinal ∧
    (InitMemcpyFuncs b.FT_WITH_CUDA)[MemcpyFlag.kCPU2CPU.ordinal]? = some (some .memcpy) ∧
    (InitMemcpyFuncs b.FT_WITH_CUDA)[MemcpyFlag.kCPU2GPU.ordinal]? =
      some (if b.FT_WITH_CUDA then some (.cudaLambda .cudaMemcpyHostToDevice) else none) ∧
    (InitMemcpyFuncs b.FT_WITH_CUDA)[MemcpyFlag.kGPU2CPU.ordinal]? =
      some (if b.FT_WITH_CUDA then some (.cudaLambda .cudaMemcpyDeviceToHost) else none) ∧
    (InitMemcpyFuncs b.FT_WITH_CUDA)[MemcpyFlag.kGPU2GPU.ordinal]? =
      some (if b.FT_WITH_CUDA then some (.cudaLambda .cudaMemcpyDeviceToDevice) else none) ∧
    MemcpyFuncTypes.memcpy.call b m dst src n = (core.memcpy m dst src n, none) ∧
    (∀ k : cudaMemcpyKind, (MemcpyFuncTypes.cudaLambda k).call b m dst src n =
      ((b.cudaMemcpy m dst src n k).2,
        if (b.cudaMemcpy m dst src n k).1 = 0 then none
        else some (.FT_ENFORCE_CUDA_SUCCESS (b.cudaMemcpy m dst src n k).1))) := by
  have htab : ∀ c : Bool,
      (InitMemcpyFuncs c).length = MemcpyFlag.kNUM_MEMCPY_FLAGS.ordinal ∧
      (InitMemcpyFuncs c)[MemcpyFlag.kCPU2CPU.ordinal]? = some (some .memcpy) ∧
      (InitMemcpyFuncs c)[MemcpyFlag.kCPU2GPU.ordinal]? =
        some (if c then some (.cudaLambda .cudaMemcpyHostToDevice) else none) ∧
      (InitMemcpyFuncs c)[MemcpyFlag.kGPU2CPU.ordinal]? =
        some (if c then some (.cudaLambda .cudaMemcpyDeviceToHost) else none) ∧
      (InitMemcpyFuncs c)[MemcpyFlag.kGPU2GPU.ordinal]? =
        some (if c then some (.cudaLambda .cudaMemcpyDeviceToDevice) else none) := by
    intro c
    cases c <;> decide
  obtain ⟨h1, h2, h3, h4, h5⟩ := htab b.FT_WITH_CUDA
  refine ⟨h1, h2, h3, h4, h5, rfl, ?_⟩
  intro k
  simp only [MemcpyFuncTypes.call]
  split <;> rfl

theorem ToMemcpyFlag_in_range (dst src : DLDeviceType) :
    (ToMemcpyFlag dst src).ordinal < MemcpyFlag.kNUM_MEMCPY_FLAGS.ordinal := by
  unfold ToMemcpyFlag
  split <;> split <;> decide

/-- C10: the kind `ToMemcpyFlag` returns has an ordinal below the table size, so a
`Memcpy` with it never raises the unsupported-transfer error, and raises the
device-not-compiled error only when the byte count is positive, the build lacks
CUDA and `dst` or `src` is not the CPU. -/
theorem Memcpy_ToMemcpyFlag_errors (b : Build) (s : Process) (d p n : Nat)
    (dst src : DLDeviceType) :
    (ToMemcpyFlag dst src).ordinal < (InitMemcpyFuncs b.FT_WITH_CUDA).length ∧
    (∀ f, (Memcpy b s d p n (ToMemcpyFlag dst src)).raised ≠
      some (UnsupportedTransferError f)) ∧
    (∀ f, (Memcpy b s d p n (ToMemcpyFlag dst src)).raised =
        some (DeviceNotCompiledError f) →
      0 < n ∧ b.FT_WITH_CUDA = false ∧
        (dst ≠ DLDeviceType.kDLCPU ∨ src ≠ DLDeviceType.kDLCPU)) := by
  have hf := ToMemcpyFlag_in_range dst src
  refine ⟨by rw [InitMemcpyFuncs_length]; exact hf, ?_, ?_⟩
  · intro f h
    rcases Nat.eq_zero_or_pos n with hn | hn
    · subst hn
      simp [Memcpy] at h
    · cases hslot : (InitMemcpyFuncs b.FT_WITH_CUDA).getD (ToMemcpyFlag dst src).ordinal none with
      | none =>
        rw [Memcpy_empty_slot b s d p n _ hn hf hslot] at h
        exact unsupported_ne_notCompiled f _ (Option.some.inj h).symm
      | some func =>
        rw [Memcpy_full_slot b s d p n _ func hn hf hslot] at h
        exact call_raised_ne_FT_THROW b func _ d p n _ _ h
  · intro f h
    rcases Nat.eq_zero_or_pos n with hn | hn
    · subst hn
      simp [Memcpy] at h
    · cases hslot : (InitMemcpyFuncs b.FT_WITH_CUDA).getD (ToMemcpyFlag dst src).ordinal none with
      | none =>
        have h2 := (InitMemcpyFuncs_slot b.FT_WITH_CUDA _ hf).mp hslot
        refine ⟨hn, h2.1, ?_⟩
        by_contra hcon
        push_neg at hcon
        apply h2.2
        simp [ToMemcpyFlag, hcon.1, hcon.2]
      | some func =>
        rw [Memcpy_full_slot b s d p n _ func hn hf hslot] at h
        exact absurd h (call_raised_ne_FT_THROW b func _ d p n _ _)

/-! ## Properties of the aligned allocation -/

theorem posix_memalign_contract : PosixContract posix_memalign := by
  intro h alignment size hst
  unfold posix_memalign at hst ⊢
  by_cases ha : alignment % sizeof_void_p = 0 ∧ alignment ≠ 0 ∧
      alignment &&& (alignment - 1) = 0
  · by_cases hfit : (h.brk + alignment - 1) / alignment * alignment + size ≤ h.limit
    · simp only [if_pos ha, if_pos hfit]
      refine ⟨Nat.mul_mod_left _ _, ?_⟩
      exact ⟨(_, size), List.mem_cons_self _ _, le_refl _, le_refl _⟩
    · simp only [if_pos ha, if_neg hfit, ENOMEM] at hst
      exact absurd hst (by decide)
  · simp only [if_neg ha, EINVAL] at hst
    exact absurd hst (by decide)

/-- C6, as the claim states it, fails: with 16 bytes and the power-of-two
alignment 2, which is not a multiple of the pointer size, and with 2^40 bytes at
alignment 64 on a heap of 2^32 bytes, `posix_memalign` reports a non-zero status
and `align_alloc` raises instead of returning an address. -/
theorem align_alloc_refuses :
    PosixContract posix_memalign ∧
    (0 < 16 ∧ (∃ k, 2 = 2 ^ k) ∧
      (align_alloc posix_memalign ⟨[], 4096, 4294967296, 0⟩ 16 2).result =
        .error (AllocationError 16 2)) ∧
    (0 < 1099511627776 ∧ (∃ k, 64 = 2 ^ k) ∧
      (align_alloc posix_memalign ⟨[], 4096, 4294967296, 0⟩ 1099511627776 64).result =
        .error (AllocationError 1099511627776 64)) :=
  ⟨posix_memalign_contract, ⟨by decide, ⟨1, rfl⟩, rfl⟩, ⟨by decide, ⟨6, rfl⟩, rfl⟩⟩

/-- C6, amended: for a size above zero and a power-of-two alignment for which
`posix_memalign` reports status 0, `align_alloc` returns the address stored by
`posix_memalign` and leaves the heap `posix_memalign` leaves; under the POSIX
contract that address is a multiple of the alignment and starts a block of at
least `sz` bytes. -/
theorem align_alloc_aligned (pm : Heap → Nat → Nat → MemalignResult)
    (hpm : PosixContract pm) (h : Heap) (sz align : Nat)
    (_hsz : 0 < sz) (_hal : ∃ k, align = 2 ^ k) (hok : (pm h align sz).status = 0) :
    (align_alloc pm h sz align).result = .ok (pm h align sz).memptr ∧
    (align_alloc pm h sz align).heap = (pm h align sz).heap ∧
    (pm h align sz).memptr % align = 0 ∧
    (align_alloc pm h sz align).heap.Writable (pm h align sz).memptr sz := by
  refine ⟨?_, ?_, (hpm h align sz hok).1, ?_⟩
  · simp only [align_alloc, if_pos hok]
  · simp only [align_alloc, if_pos hok]
  · simp only [align_alloc, if_pos hok]
    exact (hpm h align sz hok).2

/-- A request of 100 bytes at alignment 64 from a heap whose next free address is
4097: the address returned is 4160, the one `posix_memalign` stored. -/
theorem align_alloc_aligned_witness :
    (0 < 100 ∧ (∃ k, 64 = 2 ^ k) ∧
      (posix_memalign ⟨[], 4097, 4294967296, 0⟩ 64 100).status = 0) ∧
    (posix_memalign ⟨[], 4097, 4294967296, 0⟩ 64 100).memptr = 4160 ∧
    (align_alloc posix_memalign ⟨[], 4097, 4294967296, 0⟩ 100 64).result =
      .ok (posix_memalign ⟨[], 4097, 4294967296, 0⟩ 64 100).memptr ∧
    (align_alloc posix_memalign ⟨[], 4097, 4294967296, 0⟩ 100 64).heap.Writable
      (posix_memalign ⟨[], 4097, 4294967296, 0⟩ 64 100).memptr 100 :=
  ⟨⟨by decide, ⟨6, rfl⟩, rfl⟩, rfl,
    (align_alloc_aligned posix_memalign posix_memalign_contract ⟨[], 4097, 4294967296, 0⟩ 100 64
      (by decide) ⟨6, rfl⟩ rfl).1,
    (align_alloc_aligned posix_memalign posix_memalign_contract ⟨[], 4097, 4294967296, 0⟩ 100 64
      (by decide) ⟨6, rfl⟩ rfl).2.2.2⟩

/-- C7: `align_alloc` raises exactly when `posix_memalign` reports a non-zero
status; what it raises is the allocation error carrying the requested size and
alignment; it returns no pointer then; and the heap it leaves is the one left by
that single call of `posix_memalign`. -/
theorem align_alloc_fails_iff (pm : Heap → Nat → Nat → MemalignResult)
    (h : Heap) (sz align : Nat) :
    ((∃ e, (align_alloc pm h sz align).result = .error e) ↔ (pm h align sz).status ≠ 0) ∧
    (∀ e, (align_alloc pm h sz align).result = .error e → e = AllocationError sz align) ∧
    ((pm h align sz).status ≠ 0 → ∀ a, (align_alloc pm h sz align).result ≠ .ok a) ∧
    (align_alloc pm h sz align).heap = (pm h align sz).heap := by
  by_cases hst : (pm h align sz).status = 0
  · simp [align_alloc, hst]
  · simp [align_alloc, hst, AllocationError]

/-- An alignment of 3: the modelled `posix_memalign` reports `EINVAL`, is called
once, and `align_alloc` raises the allocation error for 16 bytes at alignment 3. -/
theorem align_alloc_fails_iff_witness :
    (posix_memalign ⟨[], 0, 4096, 0⟩ 3 16).status ≠ 0 ∧
    (align_alloc posix_memalign ⟨[], 0, 4096, 0⟩ 16 3).heap.calls = 1 ∧
    ∀ a, (align_alloc posix_memalign ⟨[], 0, 4096, 0⟩ 16 3).result ≠ .ok a :=
  ⟨by decide, rfl,
    (align_alloc_fails_iff posix_memalign ⟨[], 0, 4096, 0⟩ 16 3).2.2.1 (by decide)⟩

/-! ## Properties of the planner -/

namespace allocator

theorem Interval.Disjoint.symm {a b : Interval} (h : a.Disjoint b) : b.Disjoint a := by
  unfold Interval.Disjoint at *
  omega

theorem Interval.disjoint_iff (a b : Interval) :
    a.Disjoint b ↔ ∀ x, ¬ (a.offset ≤ x ∧ x < a.offset + a.size ∧
      b.offset ≤ x ∧ x < b.offset + b.size) := by
  unfold Interval.Disjoint
  constructor
  · intro h x
    omega
  · intro h
    have h1 := h a.offset
    have h2 := h b.offset
    omega

theorem mem_candidates (bound : Nat) : ∀ (rs : List TensorRequest) (es : List Interval),
    es ∈ candidates bound rs ↔
      List.Forall₂ (fun e r => e.size = r.size ∧ e.offset ≤ bound) es rs := by
  intro rs
  induction rs with
  | nil =>
    intro es
    simp [candidates, List.forall₂_nil_right_iff]
  | cons r rs ih =>
    intro es
    rw [List.forall₂_cons_right_iff]
    simp only [candidates, List.mem_flatMap, List.mem_range, List.mem_map]
    constructor
    · rintro ⟨o, ho, es', hes', rfl⟩
      exact ⟨⟨o, r.size⟩, es', ⟨rfl, by simp only; omega⟩, (ih es').mp hes', rfl⟩
    · rintro ⟨e, es', ⟨hsz, hoff⟩, hes', rfl⟩
      refine ⟨e.offset, by omega, es', (ih es').mpr hes', ?_⟩
      rw [← hsz]

theorem entryAt_eq (p : AllocationPlan) (i : Nat) (h : i < p.entries.length) :
    p.entryAt i = p.entries[i] := by
  unfold AllocationPlan.entryAt
  exact List.getD_eq_getElem _ _ h

theorem requestAt_eq (requests : List TensorRequest) (i : Nat) (h : i < requests.length) :
    requestAt requests i = requests[i] := by
  unfold requestAt
  exact List.getD_eq_getElem _ _ h

theorem feasible_in_candidates {requests : List TensorRequest} {p : AllocationPlan}
    (h : Feasible requests p) : p.entries ∈ candidates p.arenaSize requests := by
  rw [allocator.mem_candidates, List.forall₂_iff_get]
  refine ⟨h.1, ?_⟩
  intro i h1 h2
  have hi := h.2 i h2
  rw [entryAt_eq p i h1, requestAt_eq requests i h2] at hi
  simp only [List.get_eq_getElem]
  exact ⟨hi.1, by omega⟩

theorem tryArena_some {requests : List TensorRequest} {arena : Nat} {p : AllocationPlan}
    (h : tryArena requests arena = some p) : Feasible requests p ∧ p.arenaSize = arena := by
  unfold tryArena at h
  have hp := List.find?_some h
  have hm := List.mem_of_find?_eq_some h
  obtain ⟨es, _, rfl⟩ := List.mem_map.mp hm
  exact ⟨of_decide_eq_true hp, rfl⟩

theorem tryArena_none {requests : List TensorRequest} {arena : Nat}
    (h : tryArena requests arena = none) (q : AllocationPlan) (hq : Feasible requests q) :
    q.arenaSize ≠ arena := by
  intro heq
  unfold tryArena at h
  rw [List.find?_eq_none] at h
  have hm : q ∈ (candidates arena requests).map (fun es => (⟨arena, es⟩ : AllocationPlan)) := by
    refine List.mem_map.mpr ⟨q.entries, ?_, ?_⟩
    · rw [← heq]
      exact feasible_in_candidates hq
    · rw [← heq]
  exact h q hm (decide_eq_true hq)

theorem searchArena_least (requests : List TensorRequest) :
    ∀ (fuel arena : Nat),
      (∀ q, Feasible requests q → arena ≤ q.arenaSize) →
      (∃ q, Feasible requests q ∧ q.arenaSize < arena + fuel) →
      Feasible requests (searchArena requests fuel arena) ∧
        ∀ q, Feasible requests q → (searchArena requests fuel arena).arenaSize ≤ q.arenaSize := by
  intro fuel
  induction fuel with
  | zero =>
    intro arena hlow ⟨q, hq, hlt⟩
    have := hlow q hq
    omega
  | succ fuel ih =>
    intro arena hlow ⟨q, hq, hlt⟩
    simp only [searchArena]
    cases ht : tryArena requests arena with
    | some p =>
      obtain ⟨hp, hsz⟩ := tryArena_some ht
      refine ⟨hp, ?_⟩
      intro q' hq'
      simp only [hsz]
      exact hlow q' hq'
    | none =>
      simp only
      apply ih (arena + 1)
      · intro q' hq'
        have h1 := hlow q' hq'
        have h2 := tryArena_none ht q' hq'
        omega
      · exact ⟨q, hq, by omega⟩

theorem entryAt_placeAt (arena : Nat) (off : Nat → Nat) (requests : List TensorRequest)
    (i : Nat) (hi : i < requests.length) :
    (⟨arena, placeAt off requests⟩ : AllocationPlan).entryAt i =
      ⟨off i, (requestAt requests i).size⟩ := by
  have hlen : i < (placeAt off requests).length := by simpa [placeAt] using hi
  rw [entryAt_eq _ _ hlen]
  simp [placeAt]

theorem feasible_placeAt (requests : List TensorRequest) (arena : Nat) (off : Nat → Nat)
    (hin : ∀ i, i < requests.length → off i + (requestAt requests i).size ≤ arena)
    (hdis : ∀ i j, i < requests.length → j < requests.length → i ≠ j →
      (requestAt requests i).Overlaps (requestAt requests j) →
      Interval.Disjoint ⟨off i, (requestAt requests i).size⟩
        ⟨off j, (requestAt requests j).size⟩) :
    Feasible requests ⟨arena, placeAt off requests⟩ := by
  refine ⟨by simp [placeAt], ?_⟩
  intro i hi
  rw [entryAt_placeAt arena off requests i hi]
  refine ⟨rfl, hin i hi, ?_⟩
  intro j hj hij hov
  rw [entryAt_placeAt arena off requests j hj]
  exact hdis i j hi hj hij hov

theorem prefixSize_succ (requests : List TensorRequest) (k : Nat) (hk : k < requests.length) :
    prefixSize requests (k + 1) = prefixSize requests k + (requestAt requests k).size := by
  unfold prefixSize
  have hk2 : k < (requests.map (·.size)).length := by simpa using hk
  rw [List.sum_take_succ _ _ hk2, requestAt_eq requests k hk]
  simp

theorem prefixSize_mono (requests : List TensorRequest) {k l : Nat} (hkl : k ≤ l)
    (hl : l ≤ requests.length) : prefixSize requests k ≤ prefixSize requests l := by
  induction hkl with
  | refl => exact le_refl _
  | step h ih =>
    rename_i m
    have h1 := prefixSize_succ requests m (by omega)
    have h2 := ih (by omega)
    show prefixSize requests k ≤ prefixSize requests (m + 1)
    omega

theorem prefixSize_length (requests : List TensorRequest) :
    prefixSize requests requests.length = totalSize requests := by
  unfold prefixSize totalSize
  have h : (requests.map (·.size)).take requests.length = requests.map (·.size) := by
    apply List.take_of_length_le
    simp
  rw [h]

theorem prefixSize_step (requests : List TensorRequest) {k l : Nat} (hkl : k < l)
    (hl : l ≤ requests.length) :
    prefixSize requests k + (requestAt requests k).size ≤ prefixSize requests l := by
  rw [← prefixSize_succ requests k (by omega)]
  exact prefixSize_mono requests hkl hl

theorem naive_feasible (requests : List TensorRequest) : Feasible requests (naive requests) := by
  apply feasible_placeAt
  · intro i hi
    rw [← prefixSize_length]
    exact prefixSize_step requests hi (le_refl _)
  · intro i j hi hj hij _
    rcases Nat.lt_or_gt_of_ne hij with h | h
    · exact Or.inr (Or.inr (Or.inl (prefixSize_step requests h (by omega))))
    · exact Or.inr (Or.inr (Or.inr (prefixSize_step requests h (by omega))))

theorem plan_optimal (requests : List TensorRequest) :
    Feasible requests (plan requests) ∧
      ∀ q, Feasible requests q → (plan requests).arenaSize ≤ q.arenaSize := by
  unfold plan
  apply searchArena_least
  · intro q _
    exact Nat.zero_le _
  · exact ⟨naive requests, naive_feasible requests, by simp [naive]⟩

theorem prefixSkipping_step (requests : List TensorRequest) {s k l : Nat}
    (hs : s < requests.length) (hks : k ≠ s) (hkl : k < l) (hl : l ≤ requests.length) :
    prefixSkipping requests s k + (requestAt requests k).size ≤
      prefixSkipping requests s l := by
  have hstep := prefixSize_step requests hkl hl
  have hs1 := prefixSize_succ requests s hs
  unfold prefixSkipping
  by_cases h1 : s < k
  · have h2 : s < l := by omega
    have h3 := prefixSize_mono requests (show s + 1 ≤ k by omega) (by omega)
    rw [if_pos h1, if_pos h2]
    omega
  · have hk : k < s := by omega
    rw [if_neg h1]
    by_cases h2 : s < l
    · have h3 := prefixSize_step requests hk (by omega)
      have h4 := prefixSize_mono requests (show s + 1 ≤ l by omega) hl
      rw [if_pos h2]
      omega
    · rw [if_neg h2]
      exact hstep

theorem prefixSkipping_length (requests : List TensorRequest) {s : Nat}
    (hs : s < requests.length) :
    prefixSkipping requests s requests.length =
      totalSize requests - (requestAt requests s).size := by
  unfold prefixSkipping
  rw [if_pos hs, prefixSize_length]

theorem size_le_totalSize (requests : List TensorRequest) {s : Nat}
    (hs : s < requests.length) : (requestAt requests s).size ≤ totalSize requests := by
  have h1 := prefixSize_step requests (show s < s + 1 by omega) (by omega)
  have h2 := prefixSize_mono requests (show s + 1 ≤ requests.length by omega) (le_refl _)
  rw [prefixSize_length] at h2
  omega

theorem overlaps_symm {r q : TensorRequest} (h : r.Overlaps q) : q.Overlaps r :=
  ⟨h.2.1, h.1, h.2.2.2, h.2.2.1⟩

theorem shared_feasible (requests : List TensorRequest) {s b : Nat}
    (hs : s < requests.length) (hb : b < requests.length) (hsb : s ≠ b)
    (hsize : (requestAt requests s).size ≤ (requestAt requests b).size)
    (hno : ¬ (requestAt requests s).Overlaps (requestAt requests b)) :
    Feasible requests
      ⟨totalSize requests - (requestAt requests s).size,
        placeAt (sharedOffsets requests s b) requests⟩ := by
  have hnear : ∀ k, k < requests.length → k ≠ s → k ≠ b →
      Interval.Disjoint ⟨prefixSkipping requests s b, (requestAt requests s).size⟩
        ⟨prefixSkipping requests s k, (requestAt requests k).size⟩ := by
    intro k hk hks hkb
    rcases Nat.lt_or_gt_of_ne hkb with h | h
    · have := prefixSkipping_step requests hs hks h (by omega)
      exact Or.inr (Or.inr (Or.inr this))
    · have := prefixSkipping_step requests hs (Ne.symm hsb) h (by omega)
      refine Or.inr (Or.inr (Or.inl ?_))
      simp only
      omega
  apply feasible_placeAt
  · intro i hi
    rw [← prefixSkipping_length requests hs]
    unfold sharedOffsets
    by_cases his : i = s
    · have := prefixSkipping_step requests hs (Ne.symm hsb) hb (le_refl _)
      rw [if_pos his, his]
      omega
    · rw [if_neg his]
      exact prefixSkipping_step requests hs his hi (le_refl _)
  · intro i j hi hj hij hov
    unfold sharedOffsets
    by_cases his : i = s
    · have hjs : j ≠ s := fun h => hij (his.trans h.symm)
      rw [if_pos his, if_neg hjs, his]
      by_cases hjb : j = b
      · rw [his, hjb] at hov
        exact absurd hov hno
      · exact hnear j hj hjs hjb
    · rw [if_neg his]
      by_cases hjs : j = s
      · rw [if_pos hjs, hjs]
        by_cases hib : i = b
        · rw [hib, hjs] at hov
          exact absurd (overlaps_symm hov) hno
        · exact (hnear i hi his hib).symm
      · rw [if_neg hjs]
        rcases Nat.lt_or_gt_of_ne hij with h | h
        · exact Or.inr (Or.inr (Or.inl (prefixSkipping_step requests hs his h (by omega))))
        · exact Or.inr (Or.inr (Or.inr (prefixSkipping_step requests hs hjs h (by omega))))

theorem plan_le_total (requests : List TensorRequest) :
    (plan requests).arenaSize ≤ totalSize requests :=
  (plan_optimal requests).2 (naive requests) (naive_feasible requests)

theorem plan_lt_total (requests : List TensorRequest) {i j : Nat}
    (hi : i < requests.length) (hj : j < requests.length) (hij : i ≠ j)
    (hno : ¬ (requestAt requests i).Overlaps (requestAt requests j))
    (hpi : 0 < (requestAt requests i).size) (hpj : 0 < (requestAt requests j).size) :
    (plan requests).arenaSize < totalSize requests := by
  by_cases hsize : (requestAt requests i).size ≤ (requestAt requests j).size
  · have h1 := (plan_optimal requests).2 _ (shared_feasible requests hi hj hij hsize hno)
    have h2 := size_le_totalSize requests hi
    simp only at h1
    omega
  · have hno2 : ¬ (requestAt requests j).Overlaps (requestAt requests i) :=
      fun h => hno (overlaps_symm h)
    have h1 := (plan_optimal requests).2 _
      (shared_feasible requests hj hi (Ne.symm hij) (by omega) hno2)
    have h2 := size_le_totalSize requests hj
    simp only at h1
    omega

theorem resolve_eq (requests : List TensorRequest) (i : Nat) (hi : i < requests.length) :
    (plan requests).resolve i = some ((plan requests).entryAt i) := by
  have hlen : i < (plan requests).entries.length := by
    rw [(plan_optimal requests).1.1]
    exact hi
  unfold AllocationPlan.resolve
  rw [entryAt_eq _ _ hlen, List.getElem?_eq_getElem hlen]

theorem scenario_lower (q : AllocationPlan)
    (hq : Feasible [⟨100, 0, 2⟩, ⟨50, 1, 3⟩, ⟨100, 3, 5⟩] q) : 150 ≤ q.arenaSize := by
  have h0 := hq.2 0 (by decide)
  have h1 := hq.2 1 (by decide)
  have hs0 : (q.entryAt 0).size = 100 := h0.1
  have hs1 : (q.entryAt 1).size = 50 := h1.1
  have hd : (q.entryAt 0).Disjoint (q.entryAt 1) := h0.2.2 1 (by decide) (by decide) (by decide)
  have hi0 := h0.2.1
  have hi1 := h1.2.1
  unfold Interval.Disjoint at hd
  omega

end allocator

end core
end turbo_transformers
